import Mathlib

/-!
Verification development for the InternS1 multimodal model
(`src/transformers/models/interns1/modular_interns1.py` and
`configuration_interns1.py`).

The Python code is shallowly embedded: tensors become lists (batches of
vectors become lists of lists of rationals), integer tensors become lists of
integers, Python floor division on integers becomes `Int` division (`/` on
`Int` is floor division for the positive divisors that appear here, matching
Python), and exceptions (`ValueError`, failed `assert`) become `Except`.
Nonlinear scalar functions that the merging / bookkeeping logic never
inspects (the `exp` of softmax, `GELU`, the reciprocal square root inside
LayerNorm) are abstracted as function parameters.
-/

namespace InternS1

/-- Embeds `lengths.max()` of a nonempty 1-D tensor as a fold.
For a nonempty list this is the maximum element. -/
def listMax (l : List ℤ) : ℤ :=
  l.foldl max (l.headD 0)

/-- Embeds `make_pad_mask` (modular_interns1.py, lines 402-426):
`max_len = lengths.max()`, `seq_range = torch.arange(0, max_len)`,
result row `i`, column `j` is `seq_range[j] >= lengths[i]`. -/
def make_pad_mask (lengths : List ℤ) : List (List Bool) :=
  lengths.map (fun len => (List.range (listMax lengths).toNat).map
    (fun (j : Nat) => decide ((j : ℤ) ≥ len)))

/-- Output length of `nn.Conv1d` with kernel `k`, stride `s`, padding `p`
on an input of temporal length `l`: `floor((l + 2*p - k)/s) + 1`.
(Used on inputs with `l + 2*p ≥ k`, where `Nat` subtraction is exact.) -/
def convOutLen (k s p l : Nat) : Nat :=
  (l + 2 * p - k) / s + 1

/-- Default `ts_cnn_kernel_sizes` from `InternTimeSeriesEncoderConfig`. -/
def ts_cnn_kernel_sizes : List Nat := [3, 5, 5, 5]

/-- Default `ts_cnn_strides` from `InternTimeSeriesEncoderConfig`. -/
def ts_cnn_strides : List Nat := [2, 4, 4, 5]

/-- Default `ts_cnn_paddings` from `InternTimeSeriesEncoderConfig`. -/
def ts_cnn_paddings : List Nat := [1, 2, 2, 2]

/-- Temporal length of the tensor after the convolution stack of
`Conv1dSubsampling.forward`: the composition of `convOutLen` over the
default kernel/stride/padding lists. -/
def convChainLen (t : Nat) : Nat :=
  ((ts_cnn_kernel_sizes.zip (ts_cnn_strides.zip ts_cnn_paddings))).foldl
    (fun l ksp => convOutLen ksp.1 ksp.2.1 ksp.2.2 l) t

/-- The closed-form length update in `Conv1dSubsampling.forward`
(line 729): `x_lens = ((((x_lens + 1) // 2 + 3) // 4 + 3) // 4 + 4) // 5`. -/
def conv1dSubsamplingLensFormula (t : Nat) : Nat :=
  ((((t + 1) / 2 + 3) / 4 + 3) / 4 + 4) / 5

/-- Temporal length of the tensor returned by `ConcatSubsampling.forward`:
the last frame is dropped when the length is odd, then even and odd frames
are concatenated along the channel dimension, halving the length. -/
def concatSubsamplingLen (n : Nat) : Nat :=
  (if n % 2 ≠ 0 then n - 1 else n) / 2

/-- The pair produced by `Conv1dSubsampling.forward` for a batch whose
`x_lens` entries all equal the temporal size `t` of the input:
first component is the temporal length of the returned tensor
(conv stack then `ConcatSubsampling`), second is the returned `x_lens`
entry (closed-form update then `x_lens // 2` in `ConcatSubsampling`). -/
def conv1dSubsamplingForwardLens (t : Nat) : Nat × Nat :=
  (concatSubsamplingLen (convChainLen t), conv1dSubsamplingLensFormula t / 2)

/-- Embeds the `x_lens` / padding-mask part of `InternTimeSeriesModel.forward`
(lines 381-385): `x_lens = (x_lens + 1) // 2`, then
`assert torch.all(x_lens > 0)` (an `AssertionError` becomes `Except.error`),
then `src_key_padding_mask = make_pad_mask(x_lens)`. -/
def internTimeSeriesForwardMask (x_lens : List ℤ) : Except String (List (List Bool)) :=
  let halved := x_lens.map (fun l => (l + 1) / 2)
  if halved.all (fun l => decide (0 < l)) then
    Except.ok (make_pad_mask halved)
  else
    Except.error "The length of time_series_embeds is so small."

/-- Embeds `_make_causal_mask` (lines 428-442) with
`past_key_values_length = 0`: the matrix starts filled with the dtype
minimum value `minVal`, and `masked_fill_` writes `0` at entry `(i, j)`
where `mask_cond[j] < mask_cond[i] + 1`.  Every batch element receives the
same `tgt_len × tgt_len` matrix (the `expand` at the end). -/
def makeCausalMask (tgtLen : Nat) (minVal : ℚ) : List (List ℚ) :=
  (List.range tgtLen).map (fun i => (List.range tgtLen).map
    (fun j => if j < i + 1 then 0 else minVal))

/-- Embeds the attention-mask selection of `InternTimeSeriesEncoder.forward`
(lines 594-600) in the non-`chunk` branch, which calls
`_prepare_decoder_attention_mask` with `attention_mask=None` and
`past_key_values_length=0` (lines 506-525): the result is the causal mask
when the sequence length exceeds 1, and `None` otherwise. -/
def encoderDefaultAttentionMask (seqLen : Nat) (minVal : ℚ) :
    Option (List (List ℚ)) :=
  if seqLen > 1 then some (makeCausalMask seqLen minVal) else none

/-- Embeds the Python builtin `round` on a rational value: nearest integer,
ties to even (bankers rounding), as used by `round(self.chunk_length / 4 * 2)`. -/
def pythonRound (q : ℚ) : ℤ :=
  let f : ℤ := ⌊q⌋
  let r : ℚ := q - f
  if r < 1/2 then f
  else if r > 1/2 then f + 1
  else if f % 2 = 0 then f else f + 1

/-- Pointwise semantics of the slice assignment
`matrix[rs:rs+sz, cs:cs+sz] = torch.zeros(sz, sz)` on a matrix given as an
entry function. -/
def zeroBlockRegion (m : Nat → Nat → ℚ) (rs cs sz : Nat) : Nat → Nat → ℚ :=
  fun i j => if rs ≤ i ∧ i < rs + sz ∧ cs ≤ j ∧ j < cs + sz then 0 else m i j

/-- The `for i in range(k)` loop of `prepare_chunk_attention_mask`, zeroing
the diagonal block of size `bs` at offset `i * bs` for every `i < k`. -/
def applyFullBlocks (bs : Nat) : Nat → (Nat → Nat → ℚ) → (Nat → Nat → ℚ)
  | 0, m => m
  | k + 1, m => zeroBlockRegion (applyFullBlocks bs k m) (k * bs) (k * bs) bs

/-- Embeds `InternTimeSeriesEncoder.prepare_chunk_attention_mask`
(lines 527-549) as an entry function of the `matrix_size × matrix_size`
matrix (`matrix_size = input_shape[1]`): start from `torch.ones`, zero the
`num_full_blocks = matrix_size // block_size` diagonal blocks and the
trailing `remainder = matrix_size % block_size` block, then multiply by
`-65504`.  The final `unsqueeze/repeat` copies this same matrix to every
batch element. -/
def prepareChunkAttentionMask (chunkLength : ℚ) (matrixSize : Nat) :
    Nat → Nat → ℚ :=
  let blockSize := (pythonRound (chunkLength / 4 * 2)).toNat
  let numFullBlocks := matrixSize / blockSize
  let remainder := matrixSize % blockSize
  let m0 : Nat → Nat → ℚ := fun _ _ => 1
  let m1 := applyFullBlocks blockSize numFullBlocks m0
  let m2 := if remainder > 0 then
      zeroBlockRegion m1 (numFullBlocks * blockSize) (numFullBlocks * blockSize) remainder
    else m1
  fun i j => m2 i j * (-65504)

/-- The batch replication `matrix.unsqueeze(0).unsqueeze(0).repeat(B, 1, 1, 1)`
at the end of `prepare_chunk_attention_mask`: every batch element holds the
same matrix. -/
def chunkAttentionMaskBatch (batch : Nat) (chunkLength : ℚ) (matrixSize : Nat) :
    List (Nat → Nat → ℚ) :=
  List.replicate batch (prepareChunkAttentionMask chunkLength matrixSize)

/-- Embeds `inputs_embeds[mask_expanded].numel()`: the per-position boolean mask is
expanded over the hidden dimension, so the element count of the selection is
the total number of scalars in the chunks at masked positions. -/
def selectedNumel (chunks : List (List ℚ)) (mask : List Bool) : Nat :=
  ((chunks.zip mask).map (fun p => if p.2 then p.1.length else 0)).sum

/-- Embeds `torch.Tensor.masked_scatter` with a per-position mask expanded over the
hidden dimension: walking the positions in order, a masked position has its chunk
is replaced by the next `chunk.length` source scalars, an unmasked chunk is
kept. -/
def maskedScatterChunks : List (List ℚ) → List Bool → List ℚ → List (List ℚ)
  | [], _, _ => []
  | cs, [], _ => cs
  | c :: cs, m :: ms, src =>
    if m then src.take c.length :: maskedScatterChunks cs ms (src.drop c.length)
    else c :: maskedScatterChunks cs ms src

/-- Boolean-mask row selection `x[mask]` on the leading dimension: the rows
at `True` positions, in order. -/
def selectMasked {α : Type} (xs : List α) (mask : List Bool) : List α :=
  ((xs.zip mask).filter (fun p => p.2)).map (fun p => p.1)

/-- Embeds `ts_features_valid = time_series_features[~ts_pad_mask]` (line 1255)
flattened to scalars: the feature rows at non-padding positions, in order. -/
def tsFeaturesValid (tsFeatures : List (List ℚ)) (tsPadMask : List Bool) :
    List ℚ :=
  (selectMasked tsFeatures (tsPadMask.map (fun b => !b))).flatten

/-- Embeds the embedding-merge part of `InternS1Model.forward`
(lines 1217-1277) for a call with `input_ids` given and both `pixel_values`
and `time_series_signals` present, outside torchdynamo compilation.
The flattened token sequence is `input_ids`; `embed` is the text embedding
table; `image_features` is the flattened projected image-feature tensor;
`time_series_features` / `ts_pad_mask` are the projected time-series rows
and the padding mask returned by `get_time_series_features`.
`special_image_mask = input_ids == config.image_token_id`; a `ValueError`
is raised when the selected element count differs from the feature element
count, otherwise `masked_scatter` merges the features; then the same for
`special_ts_mask = input_ids == ts_context_token_id` with the non-padding
time-series rows. -/
def internS1MergeInputsEmbeds (imageTokenId tsContextTokenId : ℤ)
    (input_ids : List ℤ) (embed : ℤ → List ℚ) (image_features : List ℚ)
    (time_series_features : List (List ℚ)) (ts_pad_mask : List Bool) :
    Except String (List (List ℚ)) :=
  let inputs_embeds := input_ids.map embed
  let special_image_mask := input_ids.map (fun t => decide (t = imageTokenId))
  if selectedNumel inputs_embeds special_image_mask ≠ image_features.length then
    Except.error "Image features and image tokens do not match"
  else
    let merged := maskedScatterChunks inputs_embeds special_image_mask image_features
    let ts_features_valid := tsFeaturesValid time_series_features ts_pad_mask
    let special_ts_mask := input_ids.map (fun t => decide (t = tsContextTokenId))
    if selectedNumel merged special_ts_mask ≠ ts_features_valid.length then
      Except.error "Time series features and time series tokens do not match"
    else
      Except.ok (maskedScatterChunks merged special_ts_mask ts_features_valid)

/-- The possible forms of the `gate_logits` argument of
`load_balancing_loss_func`: `None`, a single tensor (not a tuple), or a
tuple of per-layer tensors of shape `[tokens, num_experts]`. -/
inductive GateLogits : Type
  | noneG : GateLogits
  | tensorG : List (List ℚ) → GateLogits
  | tupleG : List (List (List ℚ)) → GateLogits

/-- Embeds `torch.nn.functional.softmax` on one row, with the exponential
abstracted as a parameter `e` (the bookkeeping proved about the loss never
inspects it). -/
def softmaxRow (e : ℚ → ℚ) (row : List ℚ) : List ℚ :=
  let s := (row.map e).sum
  row.map (fun x => e x / s)

/-- The index order used to embed `torch.topk(·, k, dim=-1)` on one row:
indices sorted by decreasing value, ties broken by increasing index. -/
def topkOrder (row : List ℚ) (a b : Nat) : Prop :=
  row.getD b 0 < row.getD a 0 ∨ (row.getD a 0 = row.getD b 0 ∧ a ≤ b)

instance (row : List ℚ) : DecidableRel (topkOrder row) := fun a b => by
  unfold topkOrder; infer_instance

/-- Embeds `torch.topk(row, k).indices`: the `k` indices of the largest entries. -/
def topkIndices (k : Nat) (row : List ℚ) : List Nat :=
  (List.insertionSort (topkOrder row) (List.range row.length)).take k

/-- Embeds `load_balancing_loss_func` (lines 1355-1434) on the
`attention_mask=None` path.  Returns `0` when `gate_logits` is `None` or
not a tuple; otherwise concatenates the per-layer logits along the token
dimension, softmaxes each row, selects the `top_k` experts per token,
forms `tokens_per_expert[slot][e]` as the mean over tokens of the one-hot
indicator `selected[token][slot] == e`, forms `router_prob_per_expert[e]`
as the mean over tokens of the softmaxed probability of expert `e`, and
returns `num_experts * sum_{slot, e} tokens_per_expert[slot][e] *
router_prob_per_expert[e]`. -/
def load_balancing_loss_func (e : ℚ → ℚ) (gate_logits : GateLogits)
    (num_experts : Nat) (top_k : Nat) : ℚ :=
  match gate_logits with
  | GateLogits.noneG => 0
  | GateLogits.tensorG _ => 0
  | GateLogits.tupleG layers =>
    let concatenated := layers.flatten
    let routing_weights := concatenated.map (softmaxRow e)
    let selected := routing_weights.map (topkIndices top_k)
    let n : ℚ := routing_weights.length
    let tokens_per_expert : Nat → Nat → ℚ := fun slot ex =>
      ((selected.map (fun sel => if sel.getD slot 0 = ex then (1 : ℚ) else 0)).sum) / n
    let router_prob_per_expert : Nat → ℚ := fun ex =>
      ((routing_weights.map (fun row => row.getD ex 0)).sum) / n
    let overall_loss :=
      ((List.range top_k).map (fun slot =>
        ((List.range num_experts).map (fun ex =>
          tokens_per_expert slot ex * router_prob_per_expert ex)).sum)).sum
    overall_loss * num_experts

/-- Embeds the loss assembly of `InternS1ForConditionalGeneration.forward`
(lines 1557-1571): the language-model loss exists exactly when `labels` is
provided, and `router_aux_loss_coef * aux_loss` is added to it (with the
auxiliary loss also returned) exactly when the backbone is a MoE model,
`output_router_logits` is enabled, and `labels` is provided.
The first component is the returned `loss`, the second the returned
`aux_loss`. -/
def internS1LossAndAux (is_moe_model output_router_logits labels_provided : Bool)
    (lmLoss auxLoss coef : ℚ) : Option ℚ × Option ℚ :=
  let loss : Option ℚ := if labels_provided then some lmLoss else none
  if is_moe_model && output_router_logits && labels_provided then
    (some (lmLoss + coef * auxLoss), some auxLoss)
  else
    (loss, none)

/-- Dot product of two vectors (truncating to the shorter length, as
`zip` does; the shape hypotheses of the theorems make the lengths agree). -/
def dotProduct (a b : List ℚ) : ℚ :=
  ((a.zip b).map (fun p => p.1 * p.2)).sum

/-- Embeds `nn.Linear` with weight rows `w` (one row per output feature) and bias
`b`: output feature `i` is `w[i] · x + b[i]`. -/
def linearForward (w : List (List ℚ)) (b : List ℚ) (x : List ℚ) : List ℚ :=
  (w.zip b).map (fun wb => dotProduct wb.1 x + wb.2)

/-- Embeds `nn.LayerNorm` over the last dimension, with the reciprocal square root
of (variance + eps) abstracted as `rsqrt`: each coordinate becomes
`(x_i - mean) * rsqrt(var + eps) * weight_i + bias_i`. -/
def layerNormForward (rsqrt : ℚ → ℚ) (eps : ℚ) (w b x : List ℚ) : List ℚ :=
  let n : ℚ := x.length
  let mean := x.sum / n
  let var := (x.map (fun v => (v - mean) ^ 2)).sum / n
  List.zipWith (fun wb v => (v - mean) * rsqrt (var + eps) * wb.1 + wb.2)
    (w.zip b) x

/-- The weights of a projector block `layer_norm → linear_1 → act → linear_2`
(both `InternTSProjector` and `InternS1MultiModalProjector` have this
shape). -/
structure ProjectorWeights : Type where
  lnW : List ℚ
  lnB : List ℚ
  w1 : List (List ℚ)
  b1 : List ℚ
  w2 : List (List ℚ)
  b2 : List ℚ

/-- Embeds `InternTSProjector.forward` (lines 920-925) and
`InternS1MultiModalProjector.forward` (lines 937-942) on one vector:
`linear_2(act(linear_1(layer_norm(x))))`, with the activation (`GELU` for
the TS projector, `ACT2FN[projector_hidden_act]` for the multimodal one)
and the LayerNorm reciprocal square root abstracted. -/
def projectorForward (rsqrt act : ℚ → ℚ) (eps : ℚ) (p : ProjectorWeights)
    (x : List ℚ) : List ℚ :=
  linearForward p.w2 p.b2
    ((linearForward p.w1 p.b1 (layerNormForward rsqrt eps p.lnW p.lnB x)).map act)

/-- A projector applied to a tensor with flattened leading dimensions:
`nn.Linear` and `nn.LayerNorm` act on the last dimension only, so the
forward maps each leading-position vector independently. -/
def projectorForwardBatch (rsqrt act : ℚ → ℚ) (eps : ℚ) (p : ProjectorWeights)
    (xs : List (List ℚ)) : List (List ℚ) :=
  xs.map (projectorForward rsqrt act eps p)

/-- Python `int(·)` on a rational: truncation toward zero. -/
def pyInt (q : ℚ) : ℤ :=
  Int.tdiv q.num (q.den : ℤ)

/-- The fields of `InternTimeSeriesEncoderConfig` that the claims touch
(configuration_interns1.py, lines 26-61). -/
structure InternTimeSeriesEncoderConfigM : Type where
  ts_adapt_in_dim : Nat := 256
  ts_adapt_out_dim : Nat := 1024
  ts_hidden_dim : Nat := 1024

/-- A marker record for an `InternS1VisionConfig` instance
(configuration_interns1.py, lines 146-269); the claims only need instance
identity, not the field values. -/
structure InternS1VisionConfigM : Type where
  hidden_size : Nat := 1024

/-- An accepted `ts_config` argument of `InternS1Config.__init__`: `None`,
a `dict` (represented by the `InternTimeSeriesEncoderConfig` its
key/values describe), or an `InternTimeSeriesEncoderConfig` instance. -/
inductive TsConfigArg : Type
  | noneArg : TsConfigArg
  | dictArg : InternTimeSeriesEncoderConfigM → TsConfigArg
  | instArg : InternTimeSeriesEncoderConfigM → TsConfigArg

/-- An accepted `vision_config` argument of `InternS1Config.__init__`. -/
inductive VisionConfigArg : Type
  | noneArg : VisionConfigArg
  | dictArg : InternS1VisionConfigM → VisionConfigArg
  | instArg : InternS1VisionConfigM → VisionConfigArg

/-- The `vision_config` / `ts_config` attributes of an `InternS1Config`
object after `__init__`; `none` means the attribute was never assigned. -/
structure InternS1ConfigAttrs : Type where
  vision_config : Option InternS1VisionConfigM
  ts_config : Option InternTimeSeriesEncoderConfigM

/-- Embeds the `vision_config` / `ts_config` branches of
`InternS1Config.__init__` (configuration_interns1.py, lines 342-360).
For `vision_config`: a dict is converted and assigned, an instance is
assigned, `None` is replaced by the default config.  For `ts_config`: the
dict branch executes `ts_config = InternTimeSeriesEncoderConfig(**ts_config)`,
which rebinds the local variable only and never assigns `self.ts_config`;
the instance and `None` branches assign the attribute. -/
def internS1ConfigInit (vision_config : VisionConfigArg)
    (ts_config : TsConfigArg) : InternS1ConfigAttrs :=
  let visionAttr : Option InternS1VisionConfigM :=
    match vision_config with
    | VisionConfigArg.dictArg d => some d
    | VisionConfigArg.instArg c => some c
    | VisionConfigArg.noneArg => some {}
  let tsAttr : Option InternTimeSeriesEncoderConfigM :=
    match ts_config with
    | TsConfigArg.dictArg _ => none
    | TsConfigArg.instArg c => some c
    | TsConfigArg.noneArg => some {}
  { vision_config := visionAttr, ts_config := tsAttr }

/-! ### Helper lemmas -/

lemma le_foldl_max (l : List ℤ) (a : ℤ) : a ≤ l.foldl max a := by
  induction l generalizing a with
  | nil => simp
  | cons b t ih => exact le_trans (le_max_left a b) (ih (max a b))

lemma mem_le_foldl_max (l : List ℤ) (a x : ℤ) (hx : x ∈ l) :
    x ≤ l.foldl max a := by
  induction l generalizing a with
  | nil => cases hx
  | cons b t ih =>
    rcases List.mem_cons.mp hx with h | h
    · subst h; exact le_trans (le_max_right a x) (le_foldl_max t _)
    · exact ih _ h

lemma foldl_max_mem (l : List ℤ) (a : ℤ) : l.foldl max a = a ∨ l.foldl max a ∈ l := by
  induction l generalizing a with
  | nil => left; rfl
  | cons b t ih =>
    rcases ih (max a b) with h | h
    · rcases max_cases a b with ⟨hm, _⟩ | ⟨hm, _⟩
      · left; rw [List.foldl_cons, h, hm]
      · right; rw [List.foldl_cons, h, hm]; exact List.mem_cons_self b t
    · right; exact List.mem_cons_of_mem b h

lemma listMax_mem (l : List ℤ) (h : l ≠ []) : listMax l ∈ l := by
  cases l with
  | nil => exact absurd rfl h
  | cons a t =>
    rcases foldl_max_mem (a :: t) ((a :: t).headD 0) with h1 | h1
    · rw [listMax, h1]; exact List.mem_cons_self a t
    · rw [listMax]; exact h1

lemma le_listMax (l : List ℤ) (x : ℤ) (hx : x ∈ l) : x ≤ listMax l :=
  mem_le_foldl_max l _ x hx

/-! ### Claim theorems (first group) -/

/-- C3: for every input of temporal length `T ≥ 1` with all `x_lens` equal
to `T`, the closed-form length update of `Conv1dSubsampling.forward` equals
the composition of the convolution output-length formula over the default
layers, the halving of `ConcatSubsampling` (dropping the last frame when
odd) matches `x_lens // 2`, and hence the returned `x_lens` equals the
temporal length of the returned tensor. -/
theorem conv1dSubsampling_lens_correct (t : Nat) (ht : 1 ≤ t) :
    conv1dSubsamplingLensFormula t = convChainLen t ∧
    concatSubsamplingLen (convChainLen t) = conv1dSubsamplingLensFormula t / 2 ∧
    (conv1dSubsamplingForwardLens t).1 = (conv1dSubsamplingForwardLens t).2 := by
  have hchain : convChainLen t
      = ((((t + 2 - 3) / 2 + 1 + 4 - 5) / 4 + 1 + 4 - 5) / 4 + 1 + 4 - 5) / 5 + 1 := by
    simp [convChainLen, ts_cnn_kernel_sizes, ts_cnn_strides, ts_cnn_paddings,
      convOutLen]
  have heq : conv1dSubsamplingLensFormula t = convChainLen t := by
    rw [hchain, conv1dSubsamplingLensFormula]
    omega
  refine ⟨heq, ?_, ?_⟩
  · rw [← heq, concatSubsamplingLen]
    split <;> omega
  · simp only [conv1dSubsamplingForwardLens, ← heq, concatSubsamplingLen]
    split <;> omega

/-- C3 witness at `T = 64000` (the shape in the source comment:
`[B, 64000, 1] -> [B, 200, 256]`, lengths `64000 -> 400 -> 200`). -/
theorem conv1dSubsampling_lens_correct_witness :
    1 ≤ 64000 ∧
    (conv1dSubsamplingLensFormula 64000 = convChainLen 64000 ∧
     concatSubsamplingLen (convChainLen 64000) = conv1dSubsamplingLensFormula 64000 / 2 ∧
     (conv1dSubsamplingForwardLens 64000).1 = (conv1dSubsamplingForwardLens 64000).2) :=
  ⟨by decide, conv1dSubsampling_lens_correct 64000 (by decide)⟩

/-- C9: for a 1-D integer tensor `lengths` with a positive maximum `m`,
`make_pad_mask` returns an `n × m` boolean matrix whose entry `(i, j)` is
`True` exactly when `j ≥ lengths[i]` (`listMax lengths` is shown to be the
maximum of the list). -/
theorem make_pad_mask_spec (lengths : List ℤ) (hne : lengths ≠ [])
    (hpos : 0 < listMax lengths) :
    listMax lengths ∈ lengths ∧ (∀ x ∈ lengths, x ≤ listMax lengths) ∧
    (make_pad_mask lengths).length = lengths.length ∧
    (∀ (i : Nat) (len : ℤ), lengths[i]? = some len →
      ∃ row : List Bool, (make_pad_mask lengths)[i]? = some row ∧
        row.length = (listMax lengths).toNat ∧
        ∀ j, j < (listMax lengths).toNat →
          row[j]? = some (decide ((j : ℤ) ≥ len))) := by
  refine ⟨listMax_mem lengths hne, fun x hx => le_listMax lengths x hx, by
    simp [make_pad_mask], ?_⟩
  intro i len hlen
  refine ⟨(List.range (listMax lengths).toNat).map
    (fun (j : Nat) => decide ((j : ℤ) ≥ len)), ?_, by simp, ?_⟩
  · rw [make_pad_mask, List.getElem?_map, hlen]; rfl
  · intro j hj
    rw [List.getElem?_map, List.getElem?_range hj]; rfl

/-- C9 witness at the doc-example input `lengths = [1, 3, 2, 5]`. -/
theorem make_pad_mask_spec_witness :
    ([1, 3, 2, 5] : List ℤ) ≠ [] ∧ 0 < listMax [1, 3, 2, 5] ∧
    (listMax [1, 3, 2, 5] ∈ ([1, 3, 2, 5] : List ℤ) ∧
     (∀ x ∈ ([1, 3, 2, 5] : List ℤ), x ≤ listMax [1, 3, 2, 5]) ∧
     (make_pad_mask [1, 3, 2, 5]).length = ([1, 3, 2, 5] : List ℤ).length ∧
     (∀ (i : Nat) (len : ℤ), (([1, 3, 2, 5] : List ℤ))[i]? = some len →
       ∃ row : List Bool, (make_pad_mask [1, 3, 2, 5])[i]? = some row ∧
         row.length = (listMax [1, 3, 2, 5]).toNat ∧
         ∀ j, j < (listMax [1, 3, 2, 5]).toNat →
           row[j]? = some (decide ((j : ℤ) ≥ len)))) :=
  ⟨by decide, by decide, make_pad_mask_spec [1, 3, 2, 5] (by decide) (by decide)⟩

/-- C5: in the default (non-`chunk`) mode and for sequence length greater
than 1, the mask handed to every encoder layer is the causal mask: the
entry at `(i, j)` is `0` when `j ≤ i` and the dtype minimum value when
`j > i`. -/
theorem encoder_default_mask_causal (n : Nat) (minVal : ℚ) (h : 1 < n) :
    ∃ mask, encoderDefaultAttentionMask n minVal = some mask ∧
      mask.length = n ∧
      ∀ i j, i < n → j < n →
        ∃ row, mask[i]? = some row ∧ row.length = n ∧
          row[j]? = some (if j ≤ i then 0 else minVal) := by
  refine ⟨makeCausalMask n minVal, by simp [encoderDefaultAttentionMask, h], by
    simp [makeCausalMask], ?_⟩
  intro i j hi hj
  refine ⟨(List.range n).map (fun j => if j < i + 1 then 0 else minVal), ?_, by
    simp, ?_⟩
  · rw [makeCausalMask, List.getElem?_map, List.getElem?_range hi]; rfl
  · rw [List.getElem?_map, List.getElem?_range hj]
    have : j < i + 1 ↔ j ≤ i := Nat.lt_succ_iff
    simp [this]

/-- C5 witness at sequence length `3`, minimum value `-65504`. -/
theorem encoder_default_mask_causal_witness :
    1 < 3 ∧
    (∃ mask, encoderDefaultAttentionMask 3 (-65504) = some mask ∧
      mask.length = 3 ∧
      ∀ i j, i < 3 → j < 3 →
        ∃ row, mask[i]? = some row ∧ row.length = 3 ∧
          row[j]? = some (if j ≤ i then 0 else (-65504 : ℚ))) :=
  ⟨by decide, encoder_default_mask_causal 3 (-65504) (by decide)⟩

/-- C10: the code contradicts the claim on the `dict` form of `ts_config`:
`InternS1Config.__init__` converts the dict but binds the result to the
local variable only, so `self.ts_config` is never assigned, while every
accepted `vision_config` form and the other two `ts_config` forms do set
their attribute. -/
theorem internS1ConfigInit_dict_ts_unset :
    (internS1ConfigInit VisionConfigArg.noneArg (TsConfigArg.dictArg {})).ts_config
      = none ∧
    (internS1ConfigInit VisionConfigArg.noneArg TsConfigArg.noneArg).ts_config
      = some {} ∧
    (internS1ConfigInit VisionConfigArg.noneArg (TsConfigArg.instArg {})).ts_config
      = some {} ∧
    (internS1ConfigInit VisionConfigArg.noneArg (TsConfigArg.dictArg {})).vision_config
      = some {} ∧
    (internS1ConfigInit (VisionConfigArg.dictArg {}) TsConfigArg.noneArg).vision_config
      = some {} ∧
    (internS1ConfigInit (VisionConfigArg.instArg {}) TsConfigArg.noneArg).vision_config
      = some {} :=
  ⟨rfl, rfl, rfl, rfl, rfl, rfl⟩

lemma block_mem_iff (bs : Nat) (hbs : 0 < bs) (t i : Nat) :
    (t * bs ≤ i ∧ i < t * bs + bs) ↔ i / bs = t := by
  constructor
  · rintro ⟨h1, h2⟩
    exact Nat.div_eq_of_lt_le h1 (by rw [Nat.succ_mul]; exact h2)
  · rintro rfl
    refine ⟨Nat.div_mul_le_self i bs, ?_⟩
    calc i = bs * (i / bs) + i % bs := (Nat.div_add_mod i bs).symm
    _ < bs * (i / bs) + bs := Nat.add_lt_add_left (Nat.mod_lt i hbs) _
    _ = i / bs * bs + bs := by rw [Nat.mul_comm]

lemma applyFullBlocks_zero (bs k : Nat) (m : Nat → Nat → ℚ) (t i j : Nat)
    (ht : t < k) (hi1 : t * bs ≤ i) (hi2 : i < t * bs + bs)
    (hj1 : t * bs ≤ j) (hj2 : j < t * bs + bs) :
    applyFullBlocks bs k m i j = 0 := by
  induction k with
  | zero => omega
  | succ k ih =>
    rw [applyFullBlocks, zeroBlockRegion]
    by_cases h : k * bs ≤ i ∧ i < k * bs + bs ∧ k * bs ≤ j ∧ j < k * bs + bs
    · simp [h]
    · have ht' : t < k := by
        rcases Nat.lt_succ_iff_lt_or_eq.mp ht with h' | h'
        · exact h'
        · subst h'; exact absurd ⟨hi1, hi2, hj1, hj2⟩ h
      simp only [if_neg h]
      exact ih ht'

lemma applyFullBlocks_id (bs k : Nat) (m : Nat → Nat → ℚ) (i j : Nat)
    (h : ∀ t, t < k → ¬(t * bs ≤ i ∧ i < t * bs + bs ∧ t * bs ≤ j ∧ j < t * bs + bs)) :
    applyFullBlocks bs k m i j = m i j := by
  induction k with
  | zero => rfl
  | succ k ih =>
    rw [applyFullBlocks, zeroBlockRegion]
    rw [if_neg (h k (Nat.lt_succ_self k))]
    exact ih (fun t ht => h t (Nat.lt_succ_of_lt ht))

/-- C6: with `mask_type` equal to the chunk mode, the mask of
`prepare_chunk_attention_mask` is block-diagonal with block size
`round(chunk_length / 4 * 2)`: entries whose row and column lie in the same
consecutive diagonal block (including the trailing partial block of size
`n mod block_size`) are `0`, all others are `-65504`, and the batch
dimension holds this same matrix for every element. -/
theorem prepare_chunk_attention_mask_spec (chunkLength : ℚ) (n batch : Nat)
    (hbs : 1 ≤ (pythonRound (chunkLength / 4 * 2)).toNat) :
    (∀ i j, i < n → j < n →
      prepareChunkAttentionMask chunkLength n i j =
        if i / (pythonRound (chunkLength / 4 * 2)).toNat
            = j / (pythonRound (chunkLength / 4 * 2)).toNat
          then 0 else -65504) ∧
    (∀ b, b < batch →
      (chunkAttentionMaskBatch batch chunkLength n)[b]?
        = some (prepareChunkAttentionMask chunkLength n)) := by
  set bs := (pythonRound (chunkLength / 4 * 2)).toNat with hbsdef
  have hbs0 : 0 < bs := hbs
  constructor
  · intro i j hi hj
    rw [prepareChunkAttentionMask]
    simp only [← hbsdef]
    set nfb := n / bs with hnfb
    set rem := n % bs with hrem
    have hn : bs * nfb + rem = n := Nat.div_add_mod n bs
    have hremlt : rem < bs := Nat.mod_lt n hbs0
    by_cases hdiv : i / bs = j / bs
    · rw [if_pos hdiv]
      set t := i / bs with htdef
      have hib : t * bs ≤ i ∧ i < t * bs + bs := (block_mem_iff bs hbs0 t i).mpr rfl
      have hjb : t * bs ≤ j ∧ j < t * bs + bs := (block_mem_iff bs hbs0 t j).mpr hdiv.symm
      by_cases htlt : t < nfb
      · -- inside a full diagonal block
        have hz : applyFullBlocks bs nfb (fun _ _ => (1 : ℚ)) i j = 0 :=
          applyFullBlocks_zero bs nfb _ t i j htlt hib.1 hib.2 hjb.1 hjb.2
        by_cases hr : rem > 0
        · rw [if_pos hr, zeroBlockRegion]
          by_cases htr : nfb * bs ≤ i ∧ i < nfb * bs + rem ∧ nfb * bs ≤ j ∧ j < nfb * bs + rem
          · simp [htr]
          · rw [if_neg htr, hz, zero_mul]
        · rw [if_neg hr, hz, zero_mul]
      · -- inside the trailing partial block
        have ht_eq : t = nfb := by
          have h1 : t ≤ nfb := by
            rw [htdef, hnfb]
            exact Nat.div_le_div_right (Nat.le_of_lt hi)
          omega
        have hib' : nfb * bs ≤ i ∧ i < nfb * bs + bs := ht_eq ▸ hib
        have hjb' : nfb * bs ≤ j ∧ j < nfb * bs + bs := ht_eq ▸ hjb
        have hn' : nfb * bs + rem = n := by rw [Nat.mul_comm]; exact hn
        have hir : i < nfb * bs + rem := hn' ▸ hi
        have hjr : j < nfb * bs + rem := hn' ▸ hj
        have hr : rem > 0 := by
          rcases Nat.eq_zero_or_pos rem with h0 | h0
          · rw [h0, Nat.add_zero] at hir
            exact absurd hir (Nat.not_lt.mpr hib'.1)
          · exact h0
        rw [if_pos hr, zeroBlockRegion, if_pos ⟨hib'.1, hir, hjb'.1, hjr⟩, zero_mul]
    · rw [if_neg hdiv]
      have hone : applyFullBlocks bs nfb (fun _ _ => (1 : ℚ)) i j = 1 := by
        refine applyFullBlocks_id bs nfb _ i j ?_
        intro t ht hmem
        exact hdiv (((block_mem_iff bs hbs0 t i).mp ⟨hmem.1, hmem.2.1⟩).trans
          (((block_mem_iff bs hbs0 t j).mp ⟨hmem.2.2.1, hmem.2.2.2⟩).symm))
      by_cases hr : rem > 0
      · rw [if_pos hr, zeroBlockRegion]
        by_cases htr : nfb * bs ≤ i ∧ i < nfb * bs + rem ∧ nfb * bs ≤ j ∧ j < nfb * bs + rem
        · exfalso
          apply hdiv
          have hieq : i / bs = nfb := (block_mem_iff bs hbs0 nfb i).mp
            ⟨htr.1, by omega⟩
          have hjeq : j / bs = nfb := (block_mem_iff bs hbs0 nfb j).mp
            ⟨htr.2.2.1, by omega⟩
          rw [hieq, hjeq]
        · rw [if_neg htr, hone, one_mul]
      · rw [if_neg hr, hone, one_mul]
  · intro b hb
    rw [chunkAttentionMaskBatch, List.getElem?_replicate]
    simp [hb]

/-- C6 witness: `chunk_length = 4` (block size `round(4/4*2) = 2`),
matrix size `5`, batch `2`. -/
theorem prepare_chunk_attention_mask_spec_witness :
    1 ≤ (pythonRound ((4 : ℚ) / 4 * 2)).toNat ∧
    ((∀ i j, i < 5 → j < 5 →
      prepareChunkAttentionMask 4 5 i j =
        if i / (pythonRound ((4 : ℚ) / 4 * 2)).toNat
            = j / (pythonRound ((4 : ℚ) / 4 * 2)).toNat
          then 0 else -65504) ∧
    (∀ b, b < 2 →
      (chunkAttentionMaskBatch 2 4 5)[b]?
        = some (prepareChunkAttentionMask 4 5))) := by
  have h : 1 ≤ (pythonRound ((4 : ℚ) / 4 * 2)).toNat := by
    norm_num [pythonRound]
  exact ⟨h, prepare_chunk_attention_mask_spec 4 5 2 h⟩

/-- C4: `InternTimeSeriesModel.forward` returns
`make_pad_mask` of the halved lengths for the lengths produced by
`Conv1dSubsampling`; the halving `(M + 1) // 2` equals the output-length
formula of the stride-2 convolution of the encoder (kernel 3, stride 2,
padding 1); row `i` of the mask is `False` exactly at the column indices
below the halved length of element `i`; and the forward succeeds exactly when
every halved length is positive (the `assert`). -/
theorem internTimeSeriesForwardMask_spec (x_lens : List ℤ)
    (hne : x_lens ≠ []) (hpos : ∀ l ∈ x_lens, 1 ≤ l) :
    (internTimeSeriesForwardMask x_lens
      = Except.ok (make_pad_mask (x_lens.map (fun l => (l + 1) / 2)))) ∧
    (∀ m : Nat, 1 ≤ m → ((m : ℤ) + 1) / 2 = (convOutLen 3 2 1 m : ℤ)) ∧
    (∀ (i : Nat) (len : ℤ), x_lens[i]? = some len →
      ∃ row : List Bool,
        (make_pad_mask (x_lens.map (fun l => (l + 1) / 2)))[i]? = some row ∧
        ∀ j, j < row.length →
          (row[j]? = some false ↔ (j : ℤ) < (len + 1) / 2)) ∧
    (∀ ls : List ℤ, (∃ mask, internTimeSeriesForwardMask ls = Except.ok mask)
      ↔ ∀ l ∈ ls, 0 < (l + 1) / 2) := by
  have hassert : ∀ ls : List ℤ,
      (ls.map (fun l => (l + 1) / 2)).all (fun l => decide (0 < l)) = true
        ↔ ∀ l ∈ ls, 0 < (l + 1) / 2 := by
    intro ls
    simp [List.all_eq_true]
  refine ⟨?_, ?_, ?_, ?_⟩
  · rw [internTimeSeriesForwardMask]
    have : (x_lens.map (fun l => (l + 1) / 2)).all (fun l => decide (0 < l)) = true := by
      rw [hassert]
      intro l hl
      have h1 : 1 ≤ l := hpos l hl
      omega
    simp [this]
  · intro m hm
    rw [convOutLen]
    have : (m + 2 * 1 - 3) / 2 + 1 = (m + 1) / 2 := by omega
    rw [this]
    push_cast [Nat.cast_div_le]
    omega
  · intro i len hlen
    have hlen' : (x_lens.map (fun l => (l + 1) / 2))[i]? = some ((len + 1) / 2) := by
      rw [List.getElem?_map, hlen]; rfl
    refine ⟨(List.range (listMax (x_lens.map (fun l => (l + 1) / 2))).toNat).map
      (fun (j : Nat) => decide ((j : ℤ) ≥ (len + 1) / 2)), ?_, ?_⟩
    · rw [make_pad_mask, List.getElem?_map, hlen']; rfl
    · intro j hj
      rw [List.length_map, List.length_range] at hj
      rw [List.getElem?_map, List.getElem?_range hj]
      simp only [Option.map_some', Option.some.injEq]
      constructor
      · intro h
        have := of_decide_eq_false h
        omega
      · intro h
        rw [decide_eq_false_iff_not]
        omega
  · intro ls
    rw [internTimeSeriesForwardMask]
    by_cases h : (ls.map (fun l => (l + 1) / 2)).all (fun l => decide (0 < l)) = true
    · simp only [h, if_true]
      rw [← hassert]
      constructor
      · intro _; exact h
      · intro _; exact ⟨_, rfl⟩
    · simp only [h]
      rw [← hassert]
      constructor
      · rintro ⟨mask, hmask⟩
        simp at hmask
      · intro hc; exact absurd hc h

/-- C4 witness at subsampled lengths `[3, 4]` (halved lengths `[2, 2]`). -/
theorem internTimeSeriesForwardMask_spec_witness :
    ([3, 4] : List ℤ) ≠ [] ∧ (∀ l ∈ ([3, 4] : List ℤ), 1 ≤ l) ∧
    ((internTimeSeriesForwardMask [3, 4]
      = Except.ok (make_pad_mask (([3, 4] : List ℤ).map (fun l => (l + 1) / 2)))) ∧
    (∀ m : Nat, 1 ≤ m → ((m : ℤ) + 1) / 2 = (convOutLen 3 2 1 m : ℤ)) ∧
    (∀ (i : Nat) (len : ℤ), (([3, 4] : List ℤ))[i]? = some len →
      ∃ row : List Bool,
        (make_pad_mask (([3, 4] : List ℤ).map (fun l => (l + 1) / 2)))[i]? = some row ∧
        ∀ j, j < row.length →
          (row[j]? = some false ↔ (j : ℤ) < (len + 1) / 2)) ∧
    (∀ ls : List ℤ, (∃ mask, internTimeSeriesForwardMask ls = Except.ok mask)
      ↔ ∀ l ∈ ls, 0 < (l + 1) / 2)) :=
  ⟨by decide, by decide, internTimeSeriesForwardMask_spec [3, 4] (by decide) (by decide)⟩

lemma maskedScatterChunks_cons_true (c : List ℚ) (cs : List (List ℚ))
    (ms : List Bool) (src : List ℚ) :
    maskedScatterChunks (c :: cs) (true :: ms) src
      = src.take c.length :: maskedScatterChunks cs ms (src.drop c.length) := by
  rw [maskedScatterChunks]
  simp

lemma maskedScatterChunks_cons_false (c : List ℚ) (cs : List (List ℚ))
    (ms : List Bool) (src : List ℚ) :
    maskedScatterChunks (c :: cs) (false :: ms) src
      = c :: maskedScatterChunks cs ms src := by
  rw [maskedScatterChunks]
  simp

lemma selectedNumel_cons_true (c : List ℚ) (cs : List (List ℚ))
    (ms : List Bool) :
    selectedNumel (c :: cs) (true :: ms) = c.length + selectedNumel cs ms := by
  rw [selectedNumel, selectedNumel]
  simp [List.zip_cons_cons]

lemma selectedNumel_cons_false (c : List ℚ) (cs : List (List ℚ))
    (ms : List Bool) :
    selectedNumel (c :: cs) (false :: ms) = selectedNumel cs ms := by
  rw [selectedNumel, selectedNumel]
  simp [List.zip_cons_cons]

lemma selectMasked_cons_true {α : Type} (x : α) (xs : List α) (ms : List Bool) :
    selectMasked (x :: xs) (true :: ms) = x :: selectMasked xs ms := by
  rw [selectMasked, selectMasked]
  simp only [List.zip_cons_cons]
  rw [List.filter_cons_of_pos (by simp)]
  simp

lemma selectMasked_cons_false {α : Type} (x : α) (xs : List α) (ms : List Bool) :
    selectMasked (x :: xs) (false :: ms) = selectMasked xs ms := by
  rw [selectMasked, selectMasked]
  simp only [List.zip_cons_cons]
  rw [List.filter_cons_of_neg (by simp)]

lemma maskedScatterChunks_length (cs : List (List ℚ)) (ms : List Bool)
    (src : List ℚ) : (maskedScatterChunks cs ms src).length = cs.length := by
  induction cs generalizing ms src with
  | nil => cases ms <;> rfl
  | cons c cs ih =>
    cases ms with
    | nil => rfl
    | cons m ms =>
      cases m
      · rw [maskedScatterChunks_cons_false, List.length_cons, List.length_cons, ih]
      · rw [maskedScatterChunks_cons_true, List.length_cons, List.length_cons, ih]

lemma maskedScatterChunks_map_length (cs : List (List ℚ)) (ms : List Bool)
    (src : List ℚ) (h : selectedNumel cs ms = src.length) :
    (maskedScatterChunks cs ms src).map List.length = cs.map List.length := by
  induction cs generalizing ms src with
  | nil => cases ms <;> rfl
  | cons c cs ih =>
    cases ms with
    | nil => rfl
    | cons m ms =>
      cases m
      · rw [selectedNumel_cons_false] at h
        rw [maskedScatterChunks_cons_false, List.map_cons, List.map_cons, ih ms src h]
      · rw [selectedNumel_cons_true] at h
        rw [maskedScatterChunks_cons_true, List.map_cons, List.map_cons]
        have htake : (src.take c.length).length = c.length := by
          rw [List.length_take]; omega
        have hdrop : selectedNumel cs ms = (src.drop c.length).length := by
          rw [List.length_drop]; omega
        rw [htake, ih ms _ hdrop]

lemma maskedScatterChunks_getElem?_of_false (cs : List (List ℚ))
    (ms : List Bool) (src : List ℚ) (i : Nat) (h : ms[i]? = some false) :
    (maskedScatterChunks cs ms src)[i]? = cs[i]? := by
  induction cs generalizing ms src i with
  | nil => cases ms <;> rfl
  | cons c cs ih =>
    cases ms with
    | nil => rfl
    | cons m ms =>
      cases i with
      | zero =>
        simp only [List.getElem?_cons_zero, Option.some.injEq] at h
        subst h
        rw [maskedScatterChunks_cons_false]
        simp
      | succ i =>
        simp only [List.getElem?_cons_succ] at h
        cases m
        · rw [maskedScatterChunks_cons_false, List.getElem?_cons_succ,
            List.getElem?_cons_succ]
          exact ih ms src i h
        · rw [maskedScatterChunks_cons_true, List.getElem?_cons_succ,
            List.getElem?_cons_succ]
          exact ih ms _ i h

lemma maskedScatterChunks_select (cs : List (List ℚ)) (ms : List Bool)
    (src : List ℚ) (h : selectedNumel cs ms = src.length) :
    (selectMasked (maskedScatterChunks cs ms src) ms).flatten = src := by
  induction cs generalizing ms src with
  | nil =>
    have hz : selectedNumel [] ms = 0 := by
      rw [selectedNumel]; simp [List.zip_nil_left]
    rw [hz] at h
    have hsrc : src = [] := List.eq_nil_of_length_eq_zero h.symm
    subst hsrc
    cases ms <;> simp [maskedScatterChunks, selectMasked]
  | cons c cs ih =>
    cases ms with
    | nil =>
      have hz : selectedNumel (c :: cs) [] = 0 := by
        rw [selectedNumel]; simp [List.zip_nil_right]
      rw [hz] at h
      have hsrc : src = [] := List.eq_nil_of_length_eq_zero h.symm
      subst hsrc
      simp [maskedScatterChunks, selectMasked]
    | cons m ms =>
      cases m
      · rw [selectedNumel_cons_false] at h
        rw [maskedScatterChunks_cons_false, selectMasked_cons_false]
        exact ih ms src h
      · rw [selectedNumel_cons_true] at h
        rw [maskedScatterChunks_cons_true, selectMasked_cons_true]
        have hdrop : selectedNumel cs ms = (src.drop c.length).length := by
          rw [List.length_drop]; omega
        rw [List.flatten_cons, ih ms (src.drop c.length) hdrop,
          List.take_append_drop]

lemma maskedScatterChunks_select_disjoint (cs : List (List ℚ))
    (ms ms2 : List Bool) (src : List ℚ)
    (hdis : ∀ (i : Nat), ¬(ms[i]? = some true ∧ ms2[i]? = some true)) :
    selectMasked (maskedScatterChunks cs ms src) ms2 = selectMasked cs ms2 := by
  induction cs generalizing ms ms2 src with
  | nil => cases ms <;> rfl
  | cons c cs ih =>
    cases ms with
    | nil => rfl
    | cons m ms =>
      cases ms2 with
      | nil =>
        rw [selectMasked, selectMasked]
        simp [List.zip_nil_right]
      | cons m2 ms2 =>
        have hdis0 := hdis 0
        simp only [List.getElem?_cons_zero] at hdis0
        have hdisS : ∀ (i : Nat), ¬(ms[i]? = some true ∧ ms2[i]? = some true) := by
          intro i
          have := hdis (i + 1)
          simpa using this
        cases m
        · rw [maskedScatterChunks_cons_false]
          cases m2
          · rw [selectMasked_cons_false, selectMasked_cons_false]
            exact ih ms ms2 src hdisS
          · rw [selectMasked_cons_true, selectMasked_cons_true,
              ih ms ms2 src hdisS]
        · have hm2 : m2 = false := by
            cases m2
            · rfl
            · exact absurd ⟨rfl, rfl⟩ hdis0
          subst hm2
          rw [maskedScatterChunks_cons_true, selectMasked_cons_false,
            selectMasked_cons_false]
          exact ih ms ms2 (src.drop c.length) hdisS

lemma selectedNumel_congr (cs cs' : List (List ℚ)) (ms : List Bool)
    (h : cs.map List.length = cs'.map List.length) :
    selectedNumel cs ms = selectedNumel cs' ms := by
  induction cs generalizing cs' ms with
  | nil =>
    cases cs' with
    | nil => rfl
    | cons c' cs' => simp at h
  | cons c cs ih =>
    cases cs' with
    | nil => simp at h
    | cons c' cs' =>
      simp only [List.map_cons, List.cons.injEq] at h
      cases ms with
      | nil => rfl
      | cons m ms =>
        cases m
        · rw [selectedNumel_cons_false, selectedNumel_cons_false]
          exact ih cs' ms h.2
        · rw [selectedNumel_cons_true, selectedNumel_cons_true, h.1, ih cs' ms h.2]

/-- C2: the merge step of `InternS1Model.forward` raises a `ValueError`
exactly when the number of embedding scalars at image-token positions
differs from the number of projected image-feature scalars, or the number
of embedding scalars at time-series context-token positions differs from
the number of valid (non-padded) projected time-series feature scalars;
when both counts match, the merge completes without error. -/
theorem internS1Merge_valueError_iff (imageTokenId tsContextTokenId : ℤ)
    (input_ids : List ℤ) (embed : ℤ → List ℚ) (image_features : List ℚ)
    (time_series_features : List (List ℚ)) (ts_pad_mask : List Bool) :
    (∃ e, internS1MergeInputsEmbeds imageTokenId tsContextTokenId input_ids
        embed image_features time_series_features ts_pad_mask
        = Except.error e) ↔
      (selectedNumel (input_ids.map embed)
          (input_ids.map (fun t => decide (t = imageTokenId)))
        ≠ image_features.length ∨
       selectedNumel (input_ids.map embed)
          (input_ids.map (fun t => decide (t = tsContextTokenId)))
        ≠ (tsFeaturesValid time_series_features ts_pad_mask).length) := by
  rw [internS1MergeInputsEmbeds]
  by_cases h1 : selectedNumel (input_ids.map embed)
      (input_ids.map (fun t => decide (t = imageTokenId))) = image_features.length
  · rw [if_neg (by omega)]
    have hcongr : selectedNumel
        (maskedScatterChunks (input_ids.map embed)
          (input_ids.map (fun t => decide (t = imageTokenId))) image_features)
        (input_ids.map (fun t => decide (t = tsContextTokenId)))
        = selectedNumel (input_ids.map embed)
            (input_ids.map (fun t => decide (t = tsContextTokenId))) :=
      selectedNumel_congr _ _ _
        (maskedScatterChunks_map_length _ _ _ h1)
    by_cases h2 : selectedNumel (input_ids.map embed)
        (input_ids.map (fun t => decide (t = tsContextTokenId)))
        = (tsFeaturesValid time_series_features ts_pad_mask).length
    · rw [if_neg (by rw [hcongr]; omega)]
      constructor
      · rintro ⟨e, he⟩
        cases he
      · intro hc
        rcases hc with hc | hc
        · exact absurd h1 hc
        · exact absurd h2 hc
    · rw [if_pos (by rw [hcongr]; omega)]
      constructor
      · intro _
        right
        exact h2
      · intro _
        exact ⟨_, rfl⟩
  · rw [if_pos (by omega)]
    constructor
    · intro _
      left
      exact h1
    · intro _
      exact ⟨_, rfl⟩

/-- C1: when the merge of `InternS1Model.forward` succeeds (with distinct
image and time-series token ids), the output has one embedding per input
position, the embeddings at image-token positions are, in order, exactly
the projected image features, the embeddings at time-series context-token
positions are, in order, exactly the valid (non-padded) projected
time-series features, and every other position keeps its text embedding
unchanged. -/
theorem internS1Merge_frame_effect (imageTokenId tsContextTokenId : ℤ)
    (input_ids : List ℤ) (embed : ℤ → List ℚ) (image_features : List ℚ)
    (time_series_features : List (List ℚ)) (ts_pad_mask : List Bool)
    (hids : imageTokenId ≠ tsContextTokenId) (out : List (List ℚ))
    (hok : internS1MergeInputsEmbeds imageTokenId tsContextTokenId input_ids
        embed image_features time_series_features ts_pad_mask
        = Except.ok out) :
    out.length = input_ids.length ∧
    (∀ (i : Nat) (tok : ℤ), input_ids[i]? = some tok → tok ≠ imageTokenId →
      tok ≠ tsContextTokenId → out[i]? = some (embed tok)) ∧
    (selectMasked out
        (input_ids.map (fun t => decide (t = imageTokenId)))).flatten
      = image_features ∧
    (selectMasked out
        (input_ids.map (fun t => decide (t = tsContextTokenId)))).flatten
      = tsFeaturesValid time_series_features ts_pad_mask := by
  rw [internS1MergeInputsEmbeds] at hok
  by_cases h1 : selectedNumel (input_ids.map embed)
      (input_ids.map (fun t => decide (t = imageTokenId))) = image_features.length
  case neg =>
    rw [if_pos (by omega)] at hok
    cases hok
  rw [if_neg (by omega)] at hok
  have hcongr : selectedNumel
      (maskedScatterChunks (input_ids.map embed)
        (input_ids.map (fun t => decide (t = imageTokenId))) image_features)
      (input_ids.map (fun t => decide (t = tsContextTokenId)))
      = selectedNumel (input_ids.map embed)
          (input_ids.map (fun t => decide (t = tsContextTokenId))) :=
    selectedNumel_congr _ _ _ (maskedScatterChunks_map_length _ _ _ h1)
  by_cases h2 : selectedNumel
      (maskedScatterChunks (input_ids.map embed)
        (input_ids.map (fun t => decide (t = imageTokenId))) image_features)
      (input_ids.map (fun t => decide (t = tsContextTokenId)))
      = (tsFeaturesValid time_series_features ts_pad_mask).length
  case neg =>
    rw [if_pos (by omega)] at hok
    cases hok
  rw [if_neg (by omega)] at hok
  have hout : out = maskedScatterChunks
      (maskedScatterChunks (input_ids.map embed)
        (input_ids.map (fun t => decide (t = imageTokenId))) image_features)
      (input_ids.map (fun t => decide (t = tsContextTokenId)))
      (tsFeaturesValid time_series_features ts_pad_mask) :=
    (Except.ok.inj hok).symm
  have hdisjoint : ∀ (i : Nat),
      ¬((input_ids.map (fun t => decide (t = tsContextTokenId)))[i]? = some true ∧
        (input_ids.map (fun t => decide (t = imageTokenId)))[i]? = some true) := by
    intro i hcontra
    rcases hcontra with ⟨hts, himg⟩
    rw [List.getElem?_map] at hts himg
    cases htok : input_ids[i]? with
    | none => rw [htok] at hts; cases hts
    | some tok =>
      rw [htok] at hts himg
      simp only [Option.map_some', Option.some.injEq, decide_eq_true_eq] at hts himg
      exact hids (himg ▸ hts ▸ rfl)
  subst hout
  refine ⟨?_, ?_, ?_, ?_⟩
  · rw [maskedScatterChunks_length, maskedScatterChunks_length, List.length_map]
  · intro i tok htok hnimg hnts
    have himgF : (input_ids.map (fun t => decide (t = imageTokenId)))[i]?
        = some false := by
      rw [List.getElem?_map, htok]
      simp [hnimg]
    have htsF : (input_ids.map (fun t => decide (t = tsContextTokenId)))[i]?
        = some false := by
      rw [List.getElem?_map, htok]
      simp [hnts]
    rw [maskedScatterChunks_getElem?_of_false _ _ _ _ htsF,
      maskedScatterChunks_getElem?_of_false _ _ _ _ himgF,
      List.getElem?_map, htok]
    rfl
  · rw [maskedScatterChunks_select_disjoint _ _ _ _ hdisjoint]
    exact maskedScatterChunks_select _ _ _ h1
  · exact maskedScatterChunks_select _ _ _ h2

/-- C1 witness: image token id `1`, time-series token id `2`, tokens
`[0, 1, 2]`, a one-dimensional embedding, one image-feature scalar and one
valid time-series feature row. -/
theorem internS1Merge_frame_effect_witness :
    (1 : ℤ) ≠ 2 ∧
    internS1MergeInputsEmbeds 1 2 [0, 1, 2] (fun t => [(t : ℚ)]) [10]
      [[20], [30]] [false, true] = Except.ok [[0], [10], [20]] ∧
    (([[0], [10], [20]] : List (List ℚ)).length = ([0, 1, 2] : List ℤ).length ∧
    (∀ (i : Nat) (tok : ℤ), (([0, 1, 2] : List ℤ))[i]? = some tok →
      tok ≠ 1 → tok ≠ 2 →
      (([[0], [10], [20]] : List (List ℚ)))[i]? = some [(tok : ℚ)]) ∧
    (selectMasked ([[0], [10], [20]] : List (List ℚ))
        (([0, 1, 2] : List ℤ).map (fun t => decide (t = 1)))).flatten = [10] ∧
    (selectMasked ([[0], [10], [20]] : List (List ℚ))
        (([0, 1, 2] : List ℤ).map (fun t => decide (t = 2)))).flatten
      = tsFeaturesValid [[20], [30]] [false, true]) :=
  ⟨by decide, by rfl,
    internS1Merge_frame_effect 1 2 [0, 1, 2] (fun t => [(t : ℚ)]) [10]
      [[20], [30]] [false, true] (by decide) [[0], [10], [20]] (by rfl)⟩

lemma list_sum_map_add {α : Type} (l : List α) (f g : α → ℚ) :
    (l.map (fun x => f x + g x)).sum = (l.map f).sum + (l.map g).sum := by
  induction l with
  | nil => simp
  | cons x t ih =>
    simp only [List.map_cons, List.sum_cons, ih]
    ring

lemma list_sum_map_div {α : Type} (l : List α) (f : α → ℚ) (c : ℚ) :
    (l.map (fun x => f x / c)).sum = (l.map f).sum / c := by
  simp only [div_eq_mul_inv]
  exact List.sum_map_mul_right l f c⁻¹

lemma list_sum_swap {α β : Type} (A : List α) (B : List β) (f : α → β → ℚ) :
    (A.map (fun a => (B.map (f a)).sum)).sum
      = (B.map (fun b => (A.map (fun a => f a b)).sum)).sum := by
  induction A with
  | nil => simp
  | cons a A ih =>
    rw [List.map_cons, List.sum_cons, ih, ← list_sum_map_add]
    rfl

lemma sum_indicator_getD (sel : List Nat) (ex : Nat) :
    ((List.range sel.length).map
      (fun slot => if sel.getD slot 0 = ex then (1 : ℚ) else 0)).sum
      = (sel.map (fun x => if x = ex then (1 : ℚ) else 0)).sum := by
  induction sel with
  | nil => simp
  | cons s t ih =>
    rw [List.length_cons, List.range_succ_eq_map, List.map_cons, List.sum_cons,
      List.map_map, List.map_cons, List.sum_cons, ← ih]
    rfl

lemma sum_indicator_count (l : List Nat) (ex : Nat) :
    (l.map (fun x => if x = ex then (1 : ℚ) else 0)).sum = (l.count ex : ℚ) := by
  induction l with
  | nil => simp
  | cons x t ih =>
    rw [List.map_cons, List.sum_cons, ih, List.count_cons]
    by_cases h : x = ex
    · simp [h]
      ring
    · simp [h]

lemma count_nodup_indicator (l : List Nat) (hnd : l.Nodup) (ex : Nat) :
    ((l.count ex : Nat) : ℚ) = if ex ∈ l then 1 else 0 := by
  by_cases h : ex ∈ l
  · rw [List.count_eq_one_of_mem hnd h, if_pos h]
    rfl
  · rw [List.count_eq_zero.mpr h, if_neg h]
    rfl

lemma softmaxRow_length (e : ℚ → ℚ) (row : List ℚ) :
    (softmaxRow e row).length = row.length := by
  rw [softmaxRow]
  simp

lemma topkIndices_length (k : Nat) (row : List ℚ) (hk : k ≤ row.length) :
    (topkIndices k row).length = k := by
  rw [topkIndices, List.length_take, List.length_insertionSort, List.length_range]
  omega

lemma topkIndices_nodup (k : Nat) (row : List ℚ) : (topkIndices k row).Nodup := by
  rw [topkIndices]
  exact List.Nodup.sublist (List.take_sublist _ _)
    ((List.perm_insertionSort _ _).nodup_iff.mpr (List.nodup_range _))

lemma sum_slots_indicator (S : List (List Nat)) (k ex : Nat)
    (h : ∀ sel ∈ S, sel.length = k ∧ sel.Nodup) :
    ((List.range k).map (fun slot =>
      (S.map (fun sel => if sel.getD slot 0 = ex then (1 : ℚ) else 0)).sum)).sum
      = (S.map (fun sel => if ex ∈ sel then (1 : ℚ) else 0)).sum := by
  rw [list_sum_swap]
  congr 1
  apply List.map_congr_left
  intro sel hsel
  rw [← (h sel hsel).1, sum_indicator_getD, sum_indicator_count,
    count_nodup_indicator _ (h sel hsel).2 ex]

/-- C7: `load_balancing_loss_func` returns `0` when `gate_logits` is `None`
or not a tuple; on a tuple (with `attention_mask=None`) it returns
`num_experts` times the sum over experts of (the mean over tokens of the
indicator that the expert is among the `top_k` experts by softmaxed routing
weight) times (the mean softmaxed routing probability of the expert); and
`InternS1ForConditionalGeneration.forward` adds
`router_aux_loss_coef * aux_loss` to the returned loss exactly when the
backbone is MoE, `output_router_logits` is enabled, and labels are
provided. -/
theorem load_balancing_loss_func_spec (e : ℚ → ℚ)
    (layers : List (List (List ℚ))) (num_experts top_k : Nat)
    (hrow : ∀ row ∈ layers.flatten, row.length = num_experts)
    (hk : top_k ≤ num_experts) :
    load_balancing_loss_func e GateLogits.noneG num_experts top_k = 0 ∧
    (∀ t : List (List ℚ),
      load_balancing_loss_func e (GateLogits.tensorG t) num_experts top_k = 0) ∧
    load_balancing_loss_func e (GateLogits.tupleG layers) num_experts top_k
      = num_experts * ((List.range num_experts).map (fun ex =>
          (((layers.flatten.map (softmaxRow e)).map (fun srow =>
              if ex ∈ topkIndices top_k srow then (1 : ℚ) else 0)).sum
            / (layers.flatten.length : ℚ))
          * (((layers.flatten.map (softmaxRow e)).map
              (fun srow => srow.getD ex 0)).sum
            / (layers.flatten.length : ℚ)))).sum ∧
    (∀ (moe orl lab : Bool) (lm aux coef : ℚ),
      ((internS1LossAndAux moe orl lab lm aux coef).2 = some aux ∧
       (internS1LossAndAux moe orl lab lm aux coef).1 = some (lm + coef * aux))
      ↔ (moe = true ∧ orl = true ∧ lab = true)) := by
  refine ⟨rfl, fun t => rfl, ?_, ?_⟩
  · rw [load_balancing_loss_func]
    simp only [List.length_map]
    rw [mul_comm]
    congr 1
    rw [list_sum_swap]
    congr 1
    apply List.map_congr_left
    intro ex _
    rw [List.sum_map_mul_right, list_sum_map_div]
    have hsel : ∀ sel ∈ (layers.flatten.map (softmaxRow e)).map
        (topkIndices top_k), sel.length = top_k ∧ sel.Nodup := by
      intro sel hselmem
      rcases List.mem_map.mp hselmem with ⟨srow, hsrowmem, hseleq⟩
      rcases List.mem_map.mp hsrowmem with ⟨row, hrowmem, hroweq⟩
      refine ⟨?_, ?_⟩
      · rw [← hseleq]
        apply topkIndices_length
        rw [← hroweq, softmaxRow_length, hrow row hrowmem]
        exact hk
      · rw [← hseleq]
        exact topkIndices_nodup top_k srow
    rw [sum_slots_indicator _ top_k ex hsel, List.map_map]
    rfl
  · intro moe orl lab lm aux coef
    cases moe <;> cases orl <;> cases lab <;>
      simp [internS1LossAndAux]

/-- C7 witness: one layer with one token and two experts,
`e = fun _ => 1`, `top_k = 1`. -/
theorem load_balancing_loss_func_spec_witness :
    (∀ row ∈ ([[[0, 0]]] : List (List (List ℚ))).flatten, row.length = 2) ∧
    1 ≤ 2 ∧
    load_balancing_loss_func (fun _ => 1) (GateLogits.tupleG [[[0, 0]]]) 2 1
      = 2 * ((List.range 2).map (fun ex =>
          (((([[[0, 0]]] : List (List (List ℚ))).flatten.map
              (softmaxRow (fun _ => 1))).map (fun srow =>
              if ex ∈ topkIndices 1 srow then (1 : ℚ) else 0)).sum
            / (([[[0, 0]]] : List (List (List ℚ))).flatten.length : ℚ))
          * (((([[[0, 0]]] : List (List (List ℚ))).flatten.map
              (softmaxRow (fun _ => 1))).map
              (fun srow => srow.getD ex 0)).sum
            / (([[[0, 0]]] : List (List (List ℚ))).flatten.length : ℚ)))).sum :=
  ⟨by decide, by decide,
    (load_balancing_loss_func_spec (fun _ => 1) [[[0, 0]]] 2 1 (by decide)
      (by decide)).2.2.1⟩

lemma linearForward_length (w : List (List ℚ)) (b x : List ℚ) :
    (linearForward w b x).length = min w.length b.length := by
  rw [linearForward]
  simp [List.length_zip]

/-- C8: `InternTSProjector.forward` maps every input whose last dimension is
`ts_config.ts_hidden_dim` to an output with the same leading dimensions and
last dimension `text_config.hidden_size`, computed as
`linear_2(GELU(linear_1(layer_norm(x))))`; likewise
`InternS1MultiModalProjector.forward` maps inputs of last dimension
`vision_config.hidden_size * int(1 / downsample_ratio) ** 2` to outputs of
last dimension `text_config.hidden_size`.  The weight-shape hypotheses state
the `nn.Linear(·, hidden_size)` output dimensions fixed by the modules'
constructors. -/
theorem internS1Projectors_spec (rsqrt actTS actMM : ℚ → ℚ) (eps : ℚ)
    (pts pmm : ProjectorWeights)
    (ts_hidden_dim hidden_size vision_hidden : Nat) (dr : ℚ)
    (xts xmm : List (List ℚ))
    (hxts : ∀ x ∈ xts, x.length = ts_hidden_dim)
    (hxmm : ∀ x ∈ xmm, x.length = vision_hidden * ((pyInt (1 / dr)).toNat) ^ 2)
    (hts2 : pts.w2.length = hidden_size) (htsb2 : pts.b2.length = hidden_size)
    (hmm2 : pmm.w2.length = hidden_size) (hmmb2 : pmm.b2.length = hidden_size) :
    (projectorForwardBatch rsqrt actTS eps pts xts).length = xts.length ∧
    (∀ y ∈ projectorForwardBatch rsqrt actTS eps pts xts,
      y.length = hidden_size) ∧
    (∀ x : List ℚ, projectorForward rsqrt actTS eps pts x
      = linearForward pts.w2 pts.b2
          ((linearForward pts.w1 pts.b1
            (layerNormForward rsqrt eps pts.lnW pts.lnB x)).map actTS)) ∧
    (projectorForwardBatch rsqrt actMM eps pmm xmm).length = xmm.length ∧
    (∀ y ∈ projectorForwardBatch rsqrt actMM eps pmm xmm,
      y.length = hidden_size) ∧
    (∀ x : List ℚ, projectorForward rsqrt actMM eps pmm x
      = linearForward pmm.w2 pmm.b2
          ((linearForward pmm.w1 pmm.b1
            (layerNormForward rsqrt eps pmm.lnW pmm.lnB x)).map actMM)) := by
  refine ⟨by simp [projectorForwardBatch], ?_, fun x => rfl,
    by simp [projectorForwardBatch], ?_, fun x => rfl⟩
  · intro y hy
    rcases List.mem_map.mp hy with ⟨x, _, hxeq⟩
    rw [← hxeq, projectorForward, linearForward_length, hts2, htsb2]
    exact Nat.min_self hidden_size
  · intro y hy
    rcases List.mem_map.mp hy with ⟨x, _, hxeq⟩
    rw [← hxeq, projectorForward, linearForward_length, hmm2, hmmb2]
    exact Nat.min_self hidden_size

/-- C8 witness: one-dimensional weights, `ts_hidden_dim = 1`,
`hidden_size = 1`, `vision_hidden = 1`, `downsample_ratio = 1`. -/
theorem internS1Projectors_spec_witness :
    (∀ x ∈ ([[5]] : List (List ℚ)), x.length = 1) ∧
    (∀ x ∈ ([[7]] : List (List ℚ)),
      x.length = 1 * ((pyInt (1 / 1)).toNat) ^ 2) ∧
    (ProjectorWeights.mk [1] [0] [[1]] [0] [[1]] [0]).w2.length = 1 ∧
    (ProjectorWeights.mk [1] [0] [[1]] [0] [[1]] [0]).b2.length = 1 ∧
    ((projectorForwardBatch id id 0
        (ProjectorWeights.mk [1] [0] [[1]] [0] [[1]] [0]) [[5]]).length
      = ([[5]] : List (List ℚ)).length ∧
    (∀ y ∈ projectorForwardBatch id id 0
        (ProjectorWeights.mk [1] [0] [[1]] [0] [[1]] [0]) [[5]],
      y.length = 1) ∧
    (∀ x : List ℚ, projectorForward id id 0
        (ProjectorWeights.mk [1] [0] [[1]] [0] [[1]] [0]) x
      = linearForward [[1]] [0]
          ((linearForward [[1]] [0]
            (layerNormForward id 0 [1] [0] x)).map id)) ∧
    (projectorForwardBatch id id 0
        (ProjectorWeights.mk [1] [0] [[1]] [0] [[1]] [0]) [[7]]).length
      = ([[7]] : List (List ℚ)).length ∧
    (∀ y ∈ projectorForwardBatch id id 0
        (ProjectorWeights.mk [1] [0] [[1]] [0] [[1]] [0]) [[7]],
      y.length = 1) ∧
    (∀ x : List ℚ, projectorForward id id 0
        (ProjectorWeights.mk [1] [0] [[1]] [0] [[1]] [0]) x
      = linearForward [[1]] [0]
          ((linearForward [[1]] [0]
            (layerNormForward id 0 [1] [0] x)).map id))) :=
  ⟨by decide, by norm_num [pyInt], by decide, by decide,
    internS1Projectors_spec id id id 0
      (ProjectorWeights.mk [1] [0] [[1]] [0] [[1]] [0])
      (ProjectorWeights.mk [1] [0] [[1]] [0] [[1]] [0])
      1 1 1 1 [[5]] [[7]] (by decide) (by norm_num [pyInt]) (by decide)
      (by decide) (by decide) (by decide)⟩

end InternS1
